import Mathlib

/-!
# Route tables and request dispatch of the e-commerce backend

The repository's sources are the three Express routers (`router/user.js`,
`router/product.js`, `router/payment.js`) and the application wiring
(`server.js`).  This development embeds

* the route tables exactly as the routers declare them,
* the layer stack that `server.js` builds with `app.use`,
* the Swagger operations documented in the routers' comments,
* the way Express walks a layer stack for one request, with the behaviour of
  every handler left completely abstract (the controllers and middleware
  are imported from modules outside these sources).
-/

namespace Swagger

/-! ## Data model -/

/-- HTTP request methods. -/
inductive Method
  | GET | HEAD | POST | PUT | PATCH | DELETE | OPTIONS
  deriving DecidableEq

/-- One segment of a route pattern: a literal such as `users`, or a named
parameter such as `:id`. -/
inductive Seg
  | lit (s : String)
  | param (name : String)
  deriving DecidableEq

/-- The handler functions that the routers and `server.js` place in a layer
stack.  `userGetAll` is `getAll` of `controllers/user`, `productGetAll` is
`getAll` of `controllers/product`; `uploadsSingle` is
`uploads.single('profilePicture')`; `rootHandler` and `errorHandler` are the
two anonymous functions at the end of `server.js`. -/
inductive Handler
  -- router/user.js
  | uploadsSingle | registerValidator | register
  | verifyValidator | verify
  | resendValidator | resendOtp
  | login
  | userGetAll
  | authenticate | adminAuth | makeAdmin
  | profile
  | loginProfile | googleAuthLogin
  -- router/product.js
  | createProduct | productGetAll | getOne
  -- router/payment.js
  | initializePayment | verifyPayment | verifyPaymentWebhook
  -- server.js
  | expressJson | cors | session | passportInit | passportSession
  | swaggerUiServe | swaggerUiSetup
  | rootHandler | errorHandler
  deriving DecidableEq

/-- A route declared with `router.METHOD(path, h1, ..., hn)`. -/
structure Route where
  method : Method
  path : List Seg
  stack : List Handler
  deriving DecidableEq

/-- The routes of `router/user.js`, in declaration order.  The line
`// router.get('/users', authenticate, adminAuth, getAll);` is a comment and
declares nothing. -/
def userRouter : List Route :=
  [ ⟨.POST, [.lit "register"], [.uploadsSingle, .registerValidator, .register]⟩,
    ⟨.POST, [.lit "verify"], [.verifyValidator, .verify]⟩,
    ⟨.POST, [.lit "resend-otp"], [.resendValidator, .resendOtp]⟩,
    ⟨.POST, [.lit "login"], [.login]⟩,
    ⟨.GET, [.lit "users"], [.userGetAll]⟩,
    ⟨.PATCH, [.lit "users", .param "id"], [.authenticate, .adminAuth, .makeAdmin]⟩,
    ⟨.GET, [.lit "auth", .lit "google"], [.profile]⟩,
    ⟨.GET, [.lit "auth", .lit "google", .lit "callback"], [.loginProfile, .googleAuthLogin]⟩ ]

/-- The routes of `router/product.js`, in declaration order. -/
def productRouter : List Route :=
  [ ⟨.POST, [.lit "create-product"], [.authenticate, .adminAuth, .createProduct]⟩,
    ⟨.GET, [.lit "products"], [.productGetAll]⟩,
    ⟨.GET, [.lit "products", .param "id"], [.getOne]⟩ ]

/-- The routes of `router/payment.js`, in declaration order. -/
def paymentRouter : List Route :=
  [ ⟨.POST, [.lit "make-payment", .param "id"], [.authenticate, .initializePayment]⟩,
    ⟨.GET, [.lit "verify-payment"], [.verifyPayment]⟩,
    ⟨.POST, [.lit "verify-payment", .lit "webhook"], [.verifyPaymentWebhook]⟩ ]

/-- A layer of the application stack built by `app.use` in `server.js`. -/
inductive Layer
  | use (mount : List String) (h : Handler)
  | useRouter (mount : List String) (routes : List Route)
  | useError (h : Handler)
  deriving DecidableEq

/-- The `/api/v1` path under which `server.js` mounts the three routers. -/
def apiMount : List String := ["api", "v1"]

/-- The application stack of `server.js`, in the order of its `app.use`
calls. -/
def app : List Layer :=
  [ .use [] .expressJson,
    .use [] .cors,
    .use [] .session,
    .use [] .passportInit,
    .use [] .passportSession,
    .use ["docs"] .swaggerUiServe,
    .use ["docs"] .swaggerUiSetup,
    .useRouter apiMount userRouter,
    .useRouter apiMount productRouter,
    .useRouter apiMount paymentRouter,
    .use [] .rootHandler,
    .useError .errorHandler ]

/-! ## Swagger documentation -/

/-- One segment of a documented path: a literal, or a `{name}` template. -/
inductive DocSeg
  | lit (s : String)
  | brace (name : String)
  deriving DecidableEq

/-- An operation documented in a `@swagger` comment: method and full path. -/
structure DocOp where
  method : Method
  path : List DocSeg
  deriving DecidableEq

/-- The operations documented in `router/user.js`, in order of appearance
(`GET /api/v1/users` is documented twice). -/
def userDocs : List DocOp :=
  [ ⟨.POST, [.lit "api", .lit "v1", .lit "register"]⟩,
    ⟨.POST, [.lit "api", .lit "v1", .lit "verify"]⟩,
    ⟨.POST, [.lit "api", .lit "v1", .lit "resend-otp"]⟩,
    ⟨.POST, [.lit "api", .lit "v1", .lit "login"]⟩,
    ⟨.GET, [.lit "api", .lit "v1", .lit "users"]⟩,
    ⟨.GET, [.lit "api", .lit "v1", .lit "users"]⟩,
    ⟨.PATCH, [.lit "api", .lit "v1", .lit "users", .brace "id"]⟩,
    ⟨.GET, [.lit "api", .lit "v1", .lit "auth", .lit "google"]⟩,
    ⟨.GET, [.lit "api", .lit "v1", .lit "auth", .lit "google", .lit "callback"]⟩ ]

/-- The operations documented in `router/product.js`. -/
def productDocs : List DocOp :=
  [ ⟨.POST, [.lit "api", .lit "v1", .lit "create-product"]⟩,
    ⟨.GET, [.lit "api", .lit "v1", .lit "products"]⟩,
    ⟨.GET, [.lit "api", .lit "v1", .lit "products", .brace "id"]⟩ ]

/-- The route pattern segment that a documented segment stands for:
`{id}` corresponds to `:id`. -/
def DocSeg.toSeg : DocSeg → Seg
  | .lit s => .lit s
  | .brace n => .param n

/-- The full pattern of a route of a router mounted under `mount`. -/
def fullPath (mount : List String) (r : Route) : List Seg :=
  mount.map Seg.lit ++ r.path

/-- A documented operation is registered by a router mounted under `mount`
when the router declares a route with the same method and the same path. -/
def registered (mount : List String) (routes : List Route) (d : DocOp) : Prop :=
  ∃ r ∈ routes, r.method = d.method ∧ fullPath mount r = d.path.map DocSeg.toSeg

/-- The documented operations of every router, each paired with the mount
point and route table of the router whose file documents it. -/
def documented : List (List String × List Route × DocOp) :=
  userDocs.map (fun d => (apiMount, userRouter, d)) ++
  productDocs.map (fun d => (apiMount, productRouter, d))

/-! ## Dispatch -/

/-- A request as the router sees it: its method and its path split at `/`
(lower-cased, since Express matches paths case-insensitively by default). -/
structure Request where
  method : Method
  path : List String
  deriving DecidableEq

/-- What a handler does with control: `next()`, `next('route')`,
`next('router')`, `next(err)`, or none of them (it answers the request or
leaves it hanging). -/
inductive Outcome
  | next | nextRoute | nextRouter | error | done
  deriving DecidableEq

/-- The handlers that ran for a request, in order, each with its outcome. -/
abbrev Trace := List (Handler × Outcome)

/-- How a route or router hands control back to the stack that called it. -/
inductive Exit
  | fallthrough | error | done
  deriving DecidableEq

/-- A pattern segment matches a path segment: a literal matches itself, a
parameter matches any non-empty segment. -/
def matchSeg : Seg → String → Bool
  | .lit l, s => l == s
  | .param _, s => s != ""

/-- A route pattern matches a whole path, segment by segment. -/
def matchPath : List Seg → List String → Bool
  | [], [] => true
  | p :: ps, s :: ss => matchSeg p s && matchPath ps ss
  | _, _ => false

/-- A route declared for one method handles a request method: the same
method, or a `HEAD` request on a `GET` route. -/
def handlesMethod (routeMethod reqMethod : Method) : Bool :=
  routeMethod == reqMethod || (reqMethod == .HEAD && routeMethod == .GET)

/-- The rest of the path below a mount point, when the path lies under it. -/
def stripMount : List String → List String → Option (List String)
  | [], p => some p
  | _ :: _, [] => none
  | m :: ms, s :: ss => if m = s then stripMount ms ss else none

variable {σ : Type}

/-- Runs the handlers of one route in order.  Each handler runs on the state
left by the previous one; the next handler runs only when the current one
calls `next()`.  The returned outcome is that of the last handler that ran
(`next` when the whole stack passed control on). -/
def runStack (beh : Handler → σ → σ × Outcome) : List Handler → σ → σ × Trace × Outcome
  | [], s => (s, [], .next)
  | h :: hs, s =>
    match beh h s with
    | (s1, .next) =>
      let r := runStack beh hs s1
      (r.1, (h, .next) :: r.2.1, r.2.2)
    | (s1, o) => (s1, [(h, o)], o)

/-- How a router hands back once its walk is over: it answers an `OPTIONS`
request itself when some route matched the path, else control falls through
to the stack that mounted it. -/
def routerExit (opts : Bool) : Exit :=
  if opts then .done else .fallthrough

/-- Walks the routes of a router for one request.  A route runs when its
pattern matches the path and it handles the method; after `next()` from its
last handler or `next('route')` the walk goes on with the following routes.
`opts` records that an `OPTIONS` request matched the path of some route: the
router then answers it itself once the walk is over. -/
def runRoutes (beh : Handler → σ → σ × Outcome) (m : Method) (path : List String) :
    List Route → Bool → σ → σ × Trace × Exit
  | [], opts, s => (s, [], routerExit opts)
  | r :: rs, opts, s =>
    if matchPath r.path path then
      if handlesMethod r.method m then
        match runStack beh r.stack s with
        | (s1, t, .next) | (s1, t, .nextRoute) =>
          let q := runRoutes beh m path rs opts s1
          (q.1, t ++ q.2.1, q.2.2)
        | (s1, t, .nextRouter) => (s1, t, routerExit opts)
        | (s1, t, .error) => (s1, t, .error)
        | (s1, t, .done) => (s1, t, .done)
      else runRoutes beh m path rs (opts || m == .OPTIONS) s
    else runRoutes beh m path rs opts s

/-- Walks the application stack for one request.  `err` is set while an
error is pending: ordinary middleware and routers are then skipped and only
error-handling middleware runs. -/
def runApp (beh : Handler → σ → σ × Outcome) (req : Request) :
    List Layer → Bool → σ → σ × Trace
  | [], _, s => (s, [])
  | .use mount h :: ls, err, s =>
    if err then runApp beh req ls true s
    else
      match stripMount mount req.path with
      | none => runApp beh req ls false s
      | some _ =>
        match beh h s with
        | (s1, .next) => ((runApp beh req ls false s1).1, (h, .next) :: (runApp beh req ls false s1).2)
        | (s1, .nextRoute) =>
          ((runApp beh req ls false s1).1, (h, .nextRoute) :: (runApp beh req ls false s1).2)
        | (s1, .error) => ((runApp beh req ls true s1).1, (h, .error) :: (runApp beh req ls true s1).2)
        | (s1, o) => (s1, [(h, o)])
  | .useRouter mount routes :: ls, err, s =>
    if err then runApp beh req ls true s
    else
      match stripMount mount req.path with
      | none => runApp beh req ls false s
      | some rest =>
        match runRoutes beh req.method rest routes false s with
        | (s1, t, .fallthrough) => ((runApp beh req ls false s1).1, t ++ (runApp beh req ls false s1).2)
        | (s1, t, .error) => ((runApp beh req ls true s1).1, t ++ (runApp beh req ls true s1).2)
        | (s1, t, .done) => (s1, t)
  | .useError h :: ls, err, s =>
    if err then
      match beh h s with
      | (s1, .next) => ((runApp beh req ls false s1).1, (h, .next) :: (runApp beh req ls false s1).2)
      | (s1, .nextRoute) =>
        ((runApp beh req ls false s1).1, (h, .nextRoute) :: (runApp beh req ls false s1).2)
      | (s1, .error) => ((runApp beh req ls true s1).1, (h, .error) :: (runApp beh req ls true s1).2)
      | (s1, o) => (s1, [(h, o)])
    else runApp beh req ls false s

/-- The handlers that run, in order, when the application of `server.js`
receives `req` in state `s`. -/
def dispatch (beh : Handler → σ → σ × Outcome) (req : Request) (s : σ) : Trace :=
  (runApp beh req app false s).2

/-- Every occurrence of `target` in the trace comes directly after
`g1` and then `g2`, each of which called `next()`. -/
def Guarded (g1 g2 target : Handler) (t : Trace) : Prop :=
  ∀ pre o post, t = pre ++ (target, o) :: post →
    ∃ pre0, pre = pre0 ++ [(g1, Outcome.next), (g2, Outcome.next)]

/-- A route keeps `target` behind the guards: its stack does not contain
`target`, or it is exactly `g1, g2, target`. -/
def routeGuards (g1 g2 target : Handler) (r : Route) : Prop :=
  target ∉ r.stack ∨ r.stack = [g1, g2, target]

instance (g1 g2 target : Handler) (r : Route) : Decidable (routeGuards g1 g2 target r) := by
  unfold routeGuards
  infer_instance

/-- A layer keeps `target` behind the guards: it is middleware other than
`target`, or a router all of whose routes keep `target` behind the guards. -/
def layerGuards (g1 g2 target : Handler) : Layer → Prop
  | .use _ h => h ≠ target
  | .useError h => h ≠ target
  | .useRouter _ routes => ∀ r ∈ routes, routeGuards g1 g2 target r

instance (g1 g2 target : Handler) (l : Layer) : Decidable (layerGuards g1 g2 target l) := by
  cases l <;> unfold layerGuards <;> infer_instance

/-- Where a handler in the trace of a layer stack comes from. -/
def Origin (req : Request) (ls : List Layer) (h : Handler) : Prop :=
  (∃ mount, Layer.use mount h ∈ ls) ∨ Layer.useError h ∈ ls ∨
  ∃ mount routes rest r, Layer.useRouter mount routes ∈ ls ∧
    stripMount mount req.path = some rest ∧ r ∈ routes ∧ h ∈ r.stack ∧
    matchPath r.path rest = true ∧ handlesMethod r.method req.method = true

/-- The routes of the three routers mounted by `server.js`. -/
def allRoutes : List Route := userRouter ++ productRouter ++ paymentRouter

instance (mount : List String) (routes : List Route) (d : DocOp) :
    Decidable (registered mount routes d) := by
  unfold registered
  infer_instance

/-- A behaviour in which every handler passes control on, except the
controllers at the end of a route, which answer the request. -/
def answering : Handler → Unit → Unit × Outcome
  | .register, s | .verify, s | .resendOtp, s | .login, s | .userGetAll, s
  | .makeAdmin, s | .googleAuthLogin, s | .createProduct, s | .productGetAll, s
  | .getOne, s | .initializePayment, s | .verifyPayment, s
  | .verifyPaymentWebhook, s | .rootHandler, s | .errorHandler, s => (s, .done)
  | _, s => (s, .next)

end Swagger

/-! ## Payment reconciliation

`router/payment.js` routes `GET /verify-payment` to `verifyPayment` and
`POST /verify-payment/webhook` to `verifyPaymentWebhook`, both imported from
`controllers/payment`, which is not part of these sources.  The two
operations are therefore modelled from section 4.2 of the specification. -/

namespace PaymentVerification

/-- Modelled from the spec: the status of a Payment (section 3; the Payment
model is not part of these sources). -/
inductive Status
  | initialized | verified | failed
  deriving DecidableEq

/-- Modelled from the spec: the Payment entity of section 3 (internal
reference, product, payer, amount, currency, status, gateway transaction
identifier); the model file is not part of these sources. -/
structure Payment where
  reference : String
  product : String
  payer : String
  amount : Nat
  currency : String
  status : Status
  transactionId : String
  deriving DecidableEq

/-- Modelled from the spec: what the gateway reports for a transaction
(section 6, `getTransactionStatus`, and the outcome of a webhook). -/
inductive Report
  | success | failure | pending
  deriving DecidableEq

/-- Modelled from the spec: the error taxonomy of section 7, as far as the
payment workflow raises it. -/
inductive Error
  | NotFound | InvalidSignature | GatewayError
  deriving DecidableEq

/-- Modelled from the spec: the compare-and-set of section 4.2, missing with
`controllers/payment`: the status changes only if it is still `initialized`,
to `verified` on success and to `failed` on failure. -/
def reconcile (p : Payment) (g : Report) : Payment :=
  if p.status = .initialized then
    match g with
    | .success => { p with status := .verified }
    | .failure => { p with status := .failed }
    | .pending => p
  else p

/-- Modelled from the spec: reconciles the first stored Payment that `sel`
selects (the lookup of section 4.2) and leaves every other one as it is. -/
def reconcileWhere (sel : Payment → Bool) (g : Report) : List Payment → List Payment
  | [] => []
  | p :: ps => if sel p then reconcile p g :: ps else p :: reconcileWhere sel g ps

/-- Modelled from the spec: the signature check of `verifyPaymentWebhook`
(section 4.2): the header must equal the code that the shared secret gives
for the payload.  `mac` is the keyed digest, left abstract; that the
comparison takes constant time is not modelled. -/
def verifySignature (mac : List Nat → List Nat → List Nat) (secret payload
    signatureHeader : List Nat) : Bool :=
  decide (mac secret payload = signatureHeader)

/-- Modelled from the spec: `verifyPayment(paymentReference)` of section 4.2,
the poll path, missing with `controllers/payment`.  `gateway` answers the
status query for a transaction identifier, `none` when the call fails or
times out.  Returns the result and the store afterwards. -/
def verifyPayment (gateway : String → Option Report) (store : List Payment)
    (paymentReference : String) : Except Error Payment × List Payment :=
  match store.find? (fun p => decide (p.reference = paymentReference)) with
  | none => (.error .NotFound, store)
  | some p =>
    match gateway p.transactionId with
    | none => (.error .GatewayError, store)
    | some g =>
      (.ok (reconcile p g),
        reconcileWhere (fun q => decide (q.reference = paymentReference)) g store)

/-- Modelled from the spec: `verifyPaymentWebhook(payload, signatureHeader)`
of section 4.2, the push path, missing with `controllers/payment`.  An
unverifiable signature is rejected with `InvalidSignature`; a verified
payload is acknowledged, and the Payment with the transaction identifier it
names, if there is one, is reconciled.  `extract` reads the transaction
identifier and outcome from the payload.  Returns the result and the store
afterwards. -/
def verifyPaymentWebhook (mac : List Nat → List Nat → List Nat)
    (extract : List Nat → Option (String × Report)) (secret : List Nat)
    (store : List Payment) (payload signatureHeader : List Nat) :
    Except Error Unit × List Payment :=
  if verifySignature mac secret payload signatureHeader then
    match extract payload with
    | none => (.ok (), store)
    | some (txId, g) =>
      (.ok (), reconcileWhere (fun q => decide (q.transactionId = txId)) g store)
  else (.error .InvalidSignature, store)

/-- A reconciliation event: a poll of a payment reference, with the gateway
as it answers at that moment, or a webhook delivery. -/
inductive Event
  | poll (paymentReference : String) (gateway : String → Option Report)
  | webhook (payload signatureHeader : List Nat)

/-- The store after one reconciliation event. -/
def step (mac : List Nat → List Nat → List Nat)
    (extract : List Nat → Option (String × Report)) (secret : List Nat)
    (store : List Payment) : Event → List Payment
  | .poll ref gateway => (verifyPayment gateway store ref).2
  | .webhook payload sig => (verifyPaymentWebhook mac extract secret store payload sig).2

/-- The store after a sequence of reconciliation events. -/
def run (mac : List Nat → List Nat → List Nat)
    (extract : List Nat → Option (String × Report)) (secret : List Nat)
    (store : List Payment) (evs : List Event) : List Payment :=
  evs.foldl (step mac extract secret) store

/-- The allowed change of one Payment: none at all, or from `initialized` to
`verified` or `failed` with every other field kept. -/
def Advances (p q : Payment) : Prop :=
  q = p ∨ (p.status = .initialized ∧
    (q = { p with status := .verified } ∨ q = { p with status := .failed }))

/-- A toy keyed digest for concrete runs: the secret followed by the
payload. -/
def toyMac (secret payload : List Nat) : List Nat := secret ++ payload

/-- A toy payload reader for concrete runs: every payload names transaction
`tx-1` and reports success. -/
def toyExtract (_ : List Nat) : Option (String × Report) := some ("tx-1", .success)

/-- A stored payment for product priced 2500, still `initialized`. -/
def samplePayment : Payment :=
  ⟨"pay-1", "burger", "a@x.com", 2500, "NGN", .initialized, "tx-1"⟩

end PaymentVerification

namespace Swagger

variable {σ : Type}

/-! ## Which handlers can run -/

theorem runStack_mem (beh : Handler → σ → σ × Outcome) (hs : List Handler) (s : σ)
    (e : Handler × Outcome) (he : e ∈ (runStack beh hs s).2.1) : e.1 ∈ hs := by
  induction hs generalizing s with
  | nil => simp [runStack] at he
  | cons h hs ih =>
    unfold runStack at he
    split at he
    · simp only [List.mem_cons] at he
      rcases he with rfl | he
      · simp
      · exact List.mem_cons_of_mem _ (ih _ he)
    · simp only [List.mem_singleton] at he
      subst he
      simp

theorem runRoutes_mem (beh : Handler → σ → σ × Outcome) (m : Method) (path : List String)
    (rs : List Route) (opts : Bool) (s : σ) (e : Handler × Outcome)
    (he : e ∈ (runRoutes beh m path rs opts s).2.1) :
    ∃ r ∈ rs, e.1 ∈ r.stack ∧ matchPath r.path path = true ∧
      handlesMethod r.method m = true := by
  induction rs generalizing s opts with
  | nil => simp [runRoutes] at he
  | cons r rs ih =>
    unfold runRoutes at he
    split_ifs at he with hp hm
    · have key : ∀ t : Trace, e ∈ t → (∀ x ∈ t, x.1 ∈ r.stack) →
          ∃ r0 ∈ r :: rs, e.1 ∈ r0.stack ∧ matchPath r0.path path = true ∧
            handlesMethod r0.method m = true :=
        fun t het hall => ⟨r, List.mem_cons_self _ _, hall e het, hp, hm⟩
      have hstack : ∀ x ∈ (runStack beh r.stack s).2.1, x.1 ∈ r.stack :=
        fun x hx => runStack_mem beh r.stack s x hx
      split at he
      all_goals rename_i heq
      all_goals rw [heq] at hstack
      all_goals simp only at hstack he
      · rcases List.mem_append.mp he with h1 | h2
        · exact key _ h1 hstack
        · obtain ⟨r0, hr0, h⟩ := ih _ _ h2
          exact ⟨r0, List.mem_cons_of_mem _ hr0, h⟩
      · rcases List.mem_append.mp he with h1 | h2
        · exact key _ h1 hstack
        · obtain ⟨r0, hr0, h⟩ := ih _ _ h2
          exact ⟨r0, List.mem_cons_of_mem _ hr0, h⟩
      · exact key _ he hstack
      · exact key _ he hstack
      · exact key _ he hstack
    · obtain ⟨r0, hr0, h⟩ := ih _ _ he
      exact ⟨r0, List.mem_cons_of_mem _ hr0, h⟩
    · obtain ⟨r0, hr0, h⟩ := ih _ _ he
      exact ⟨r0, List.mem_cons_of_mem _ hr0, h⟩

theorem Origin.tail {req : Request} {l : Layer} {ls : List Layer} {h : Handler}
    (ho : Origin req ls h) : Origin req (l :: ls) h := by
  rcases ho with ⟨mount, hm⟩ | hm | ⟨mount, routes, rest, r, hm, rest0⟩
  · exact Or.inl ⟨mount, List.mem_cons_of_mem _ hm⟩
  · exact Or.inr (Or.inl (List.mem_cons_of_mem _ hm))
  · exact Or.inr (Or.inr ⟨mount, routes, rest, r, List.mem_cons_of_mem _ hm, rest0⟩)

theorem runApp_mem (beh : Handler → σ → σ × Outcome) (req : Request)
    (ls : List Layer) (err : Bool) (s : σ) (e : Handler × Outcome)
    (he : e ∈ (runApp beh req ls err s).2) : Origin req ls e.1 := by
  induction ls generalizing s err with
  | nil => simp [runApp] at he
  | cons l ls ih =>
    cases l with
    | use mount h =>
      have here : Origin req (Layer.use mount h :: ls) h :=
        Or.inl ⟨mount, List.mem_cons_self _ _⟩
      unfold runApp at he
      split_ifs at he with herr
      · exact (ih _ _ he).tail
      · split at he
        · exact (ih _ _ he).tail
        · split at he
          all_goals simp only [List.mem_cons, List.mem_singleton, List.not_mem_nil,
            or_false] at he
          · rcases he with rfl | he
            · exact here
            · exact (ih _ _ he).tail
          · rcases he with rfl | he
            · exact here
            · exact (ih _ _ he).tail
          · rcases he with rfl | he
            · exact here
            · exact (ih _ _ he).tail
          · subst he
            exact here
    | useRouter mount routes =>
      unfold runApp at he
      split_ifs at he with herr
      · exact (ih _ _ he).tail
      · split at he
        · exact (ih _ _ he).tail
        · rename_i rest hrest
          have here : ∀ x ∈ (runRoutes beh req.method rest routes false s).2.1,
              Origin req (Layer.useRouter mount routes :: ls) x.1 := by
            intro x hx
            obtain ⟨r, hr, h1, h2, h3⟩ := runRoutes_mem beh req.method rest routes false s x hx
            exact Or.inr (Or.inr ⟨mount, routes, rest, r, List.mem_cons_self _ _, hrest,
              hr, h1, h2, h3⟩)
          split at he
          all_goals rename_i heq
          all_goals rw [heq] at here
          all_goals simp only at here he
          · rcases List.mem_append.mp he with h1 | h2
            · exact here _ h1
            · exact (ih _ _ h2).tail
          · rcases List.mem_append.mp he with h1 | h2
            · exact here _ h1
            · exact (ih _ _ h2).tail
          · exact here _ he
    | useError h =>
      have here : Origin req (Layer.useError h :: ls) h :=
        Or.inr (Or.inl (List.mem_cons_self _ _))
      unfold runApp at he
      split_ifs at he with herr
      · split at he
        all_goals simp only [List.mem_cons, List.mem_singleton, List.not_mem_nil,
          or_false] at he
        · rcases he with rfl | he
          · exact here
          · exact (ih _ _ he).tail
        · rcases he with rfl | he
          · exact here
          · exact (ih _ _ he).tail
        · rcases he with rfl | he
          · exact here
          · exact (ih _ _ he).tail
        · subst he
          exact here
      · exact (ih _ _ he).tail

/-! ## Guards in front of a handler -/

theorem Guarded.of_free {g1 g2 target : Handler} {t : Trace}
    (h : ∀ e ∈ t, e.1 ≠ target) : Guarded g1 g2 target t := by
  intro pre o post heq
  exact absurd rfl (h (target, o) (by rw [heq]; simp))

theorem Guarded.append {g1 g2 target : Handler} {t1 t2 : Trace}
    (h1 : Guarded g1 g2 target t1) (h2 : Guarded g1 g2 target t2) :
    Guarded g1 g2 target (t1 ++ t2) := by
  intro pre o post heq
  rcases List.append_eq_append_iff.mp heq with ⟨a, ha, h⟩ | ⟨c, hc, h⟩
  · obtain ⟨p0, hp0⟩ := h2 a o post h
    exact ⟨t1 ++ p0, by rw [ha, hp0, List.append_assoc]⟩
  · cases c with
    | nil =>
      obtain ⟨p0, hp0⟩ := h2 [] o post (by simpa using h.symm)
      simp at hp0
    | cons y c =>
      simp only [List.cons_append, List.cons.injEq] at h
      exact h1 pre o c (by rw [hc, h.1])

theorem Guarded.cons {g1 g2 target : Handler} {t : Trace} {e : Handler × Outcome}
    (he : e.1 ≠ target) (h : Guarded g1 g2 target t) : Guarded g1 g2 target (e :: t) := by
  have h0 : Guarded g1 g2 target [e] :=
    Guarded.of_free (by intro x hx; rw [List.mem_singleton.mp hx]; exact he)
  exact h0.append h

theorem Guarded.chain {g1 g2 target : Handler} (hg1 : g1 ≠ target) (hg2 : g2 ≠ target)
    (o : Outcome) :
    Guarded g1 g2 target [(g1, Outcome.next), (g2, Outcome.next), (target, o)] := by
  intro pre o1 post heq
  match pre, heq with
  | [], heq => simp at heq; exact absurd heq.1.1 hg1
  | [_], heq => simp at heq; exact absurd heq.2.1.1 hg2
  | [a, b], heq =>
    simp at heq
    exact ⟨[], by simp [heq.1, heq.2.1]⟩
  | _ :: _ :: _ :: _, heq => simp at heq

theorem runStack_single (beh : Handler → σ → σ × Outcome) (h : Handler) (s : σ) :
    (runStack beh [h] s).2.1 = [(h, (beh h s).2)] := by
  unfold runStack
  split
  · rename_i heq
    simp [runStack, heq]
  · rename_i heq
    simp [heq]

theorem runStack_guarded (beh : Handler → σ → σ × Outcome) {g1 g2 target : Handler}
    (hg1 : g1 ≠ target) (hg2 : g2 ≠ target) (r : Route)
    (hr : routeGuards g1 g2 target r) (s : σ) :
    Guarded g1 g2 target (runStack beh r.stack s).2.1 := by
  rcases hr with hfree | hstack
  · apply Guarded.of_free
    intro e he heq
    exact hfree (heq ▸ runStack_mem beh r.stack s e he)
  · rw [hstack]
    unfold runStack
    split
    · unfold runStack
      split
      · simp only
        rw [runStack_single]
        exact Guarded.chain hg1 hg2 _
      · exact Guarded.of_free (by simp [hg1, hg2])
    · exact Guarded.of_free (by simp [hg1])

theorem runRoutes_guarded (beh : Handler → σ → σ × Outcome) {g1 g2 target : Handler}
    (hg1 : g1 ≠ target) (hg2 : g2 ≠ target) (m : Method) (path : List String)
    (rs : List Route) (hrs : ∀ r ∈ rs, routeGuards g1 g2 target r) (opts : Bool) (s : σ) :
    Guarded g1 g2 target (runRoutes beh m path rs opts s).2.1 := by
  induction rs generalizing s opts with
  | nil => exact Guarded.of_free (by simp [runRoutes])
  | cons r rs ih =>
    have ih0 := ih (fun r0 hr0 => hrs r0 (List.mem_cons_of_mem _ hr0))
    have hstack := runStack_guarded beh hg1 hg2 r (hrs r (List.mem_cons_self _ _)) s
    unfold runRoutes
    split_ifs with hp hm
    · split
      all_goals rename_i heq
      all_goals rw [heq] at hstack
      all_goals simp only at hstack ⊢
      · exact hstack.append (ih0 _ _)
      · exact hstack.append (ih0 _ _)
      · exact hstack
      · exact hstack
      · exact hstack
    · exact ih0 _ _
    · exact ih0 _ _

theorem runApp_guarded (beh : Handler → σ → σ × Outcome) (req : Request)
    {g1 g2 target : Handler} (hg1 : g1 ≠ target) (hg2 : g2 ≠ target)
    (ls : List Layer) (hls : ∀ l ∈ ls, layerGuards g1 g2 target l) (err : Bool) (s : σ) :
    Guarded g1 g2 target (runApp beh req ls err s).2 := by
  induction ls generalizing s err with
  | nil => exact Guarded.of_free (by simp [runApp])
  | cons l ls ih =>
    have ih0 := ih (fun l0 hl0 => hls l0 (List.mem_cons_of_mem _ hl0))
    have hl := hls l (List.mem_cons_self _ _)
    cases l with
    | use mount h =>
      have hne : h ≠ target := hl
      unfold runApp
      split_ifs with herr
      · exact ih0 _ _
      · split
        · exact ih0 _ _
        · split
          · exact Guarded.cons hne (ih0 _ _)
          · exact Guarded.cons hne (ih0 _ _)
          · exact Guarded.cons hne (ih0 _ _)
          · exact Guarded.of_free (by simp [hne])
    | useRouter mount routes =>
      have hrs : ∀ r ∈ routes, routeGuards g1 g2 target r := hl
      unfold runApp
      split_ifs with herr
      · exact ih0 _ _
      · split
        · exact ih0 _ _
        · rename_i rest hrest
          have hr := runRoutes_guarded beh hg1 hg2 req.method rest routes hrs false s
          split
          all_goals rename_i heq
          all_goals rw [heq] at hr
          all_goals simp only at hr ⊢
          · exact hr.append (ih0 _ _)
          · exact hr.append (ih0 _ _)
          · exact hr
    | useError h =>
      have hne : h ≠ target := hl
      unfold runApp
      split_ifs with herr
      · split
        · exact Guarded.cons hne (ih0 _ _)
        · exact Guarded.cons hne (ih0 _ _)
        · exact Guarded.cons hne (ih0 _ _)
        · exact Guarded.of_free (by simp [hne])
      · exact ih0 _ _

/-! ## Matching facts -/

theorem stripMount_some {mount path rest : List String}
    (h : stripMount mount path = some rest) : path = mount ++ rest := by
  induction mount generalizing path with
  | nil => simpa [stripMount] using h
  | cons m ms ih =>
    cases path with
    | nil => simp [stripMount] at h
    | cons p ps =>
      unfold stripMount at h
      split_ifs at h with hmp
      rw [hmp, ih h]
      rfl

theorem handlesMethod_of_ne_GET {rm m : Method} (hrm : rm ≠ .GET)
    (h : handlesMethod rm m = true) : m = rm := by
  cases rm <;> cases m <;> simp_all [handlesMethod]

theorem origin_app {req : Request} {h : Handler} (ho : Origin req app h)
    (hmw : ∀ mount, Layer.use mount h ∉ app) (herr : Layer.useError h ∉ app) :
    ∃ r ∈ allRoutes, ∃ rest, req.path = apiMount ++ rest ∧ h ∈ r.stack ∧
      matchPath r.path rest = true ∧ handlesMethod r.method req.method = true := by
  rcases ho with ⟨mount, hm⟩ | hm | ⟨mount, routes, rest, r, hm, hrest, hr, hh, hp, hmeth⟩
  · exact absurd hm (hmw mount)
  · exact absurd hm herr
  · have hmem : mount = apiMount ∧ routes ∈ [userRouter, productRouter, paymentRouter] := by
      simp only [app, List.mem_cons, Layer.useRouter.injEq, List.mem_singleton,
        List.not_mem_nil, or_false, reduceCtorEq, false_or] at hm
      rcases hm with ⟨h1, h2⟩ | ⟨h1, h2⟩ | ⟨h1, h2⟩ <;> simp [h1, h2]
    obtain ⟨rfl, hroutes⟩ := hmem
    refine ⟨r, ?_, rest, stripMount_some hrest, hh, hp, hmeth⟩
    simp only [List.mem_cons, List.mem_singleton, List.not_mem_nil, or_false] at hroutes
    rcases hroutes with rfl | rfl | rfl <;> simp [allRoutes, hr]

theorem matchPath_lit_single {l : String} {rest : List String}
    (h : matchPath [Seg.lit l] rest = true) : rest = [l] := by
  match rest, h with
  | [a], h =>
    simp only [matchPath, matchSeg, Bool.and_true, beq_iff_eq] at h
    rw [h]
  | [], h => simp [matchPath] at h
  | _ :: _ :: _, h => simp [matchPath] at h

theorem matchPath_lit_param {l n : String} {rest : List String}
    (h : matchPath [Seg.lit l, Seg.param n] rest = true) :
    ∃ v, v ≠ "" ∧ rest = [l, v] := by
  match rest, h with
  | [a, b], h =>
    simp only [matchPath, matchSeg, Bool.and_true, Bool.and_eq_true, beq_iff_eq, bne_iff_ne,
      ne_eq] at h
    exact ⟨b, h.2, by rw [h.1]⟩
  | [], h => simp [matchPath] at h
  | [_], h => simp [matchPath] at h
  | _ :: _ :: _ :: _, h => simp [matchPath] at h

/-! ## Claims about the route tables -/

/-- C1 (evaluated on the code): for `GET /api/v1/users` the route declared in
`router/user.js` has the handler chain `getAll` alone, and a request without
any credentials reaches `getAll` after the global middleware only: neither
`authenticate` nor `adminAuth` runs before it. -/
theorem getAll_users_runs_without_guards :
    (userRouter.filter (fun r => decide (Handler.userGetAll ∈ r.stack))
      = [⟨.GET, [.lit "users"], [.userGetAll]⟩]) ∧
    dispatch answering ⟨.GET, ["api", "v1", "users"]⟩ () =
      [(.expressJson, .next), (.cors, .next), (.session, .next), (.passportInit, .next),
       (.passportSession, .next), (.userGetAll, .done)] ∧
    ¬ Guarded .authenticate .adminAuth .userGetAll
        (dispatch answering ⟨.GET, ["api", "v1", "users"]⟩ ()) := by
  refine ⟨by decide, by decide, ?_⟩
  intro hg
  obtain ⟨pre0, hpre0⟩ := hg
    [(.expressJson, .next), (.cors, .next), (.session, .next), (.passportInit, .next),
     (.passportSession, .next)] .done [] (by decide)
  have hlast := congrArg (fun t => t.getLast?) hpre0
  simp at hlast

/-- C2: whatever the handlers do, `createProduct` runs only for a request
`POST /api/v1/create-product`, and every time it runs `authenticate` and then
`adminAuth` ran directly before it and each called `next()`; among the
routes of the three routers only `POST /create-product` of the product
router has `createProduct` in its chain. -/
theorem createProduct_only_behind_admin_guards (beh : Handler → σ → σ × Outcome)
    (req : Request) (s : σ) :
    (∀ pre o post, dispatch beh req s = pre ++ (Handler.createProduct, o) :: post →
      req = ⟨.POST, ["api", "v1", "create-product"]⟩ ∧
      ∃ pre0, pre = pre0 ++ [(Handler.authenticate, Outcome.next),
        (Handler.adminAuth, Outcome.next)]) ∧
    (∀ r ∈ userRouter ++ paymentRouter, Handler.createProduct ∉ r.stack) ∧
    productRouter.filter (fun r => decide (Handler.createProduct ∈ r.stack)) =
      [⟨.POST, [.lit "create-product"], [.authenticate, .adminAuth, .createProduct]⟩] := by
  refine ⟨?_, by decide, by decide⟩
  intro pre o post htrace
  constructor
  · have hmem : (Handler.createProduct, o) ∈ (runApp beh req app false s).2 := by
      show (Handler.createProduct, o) ∈ dispatch beh req s
      rw [htrace]
      simp
    obtain ⟨r, hr, rest, hpath, hh, hp, hm⟩ :=
      origin_app (runApp_mem beh req app false s _ hmem) (by simp [app]) (by simp [app])
    have hroute : r = ⟨.POST, [.lit "create-product"],
        [.authenticate, .adminAuth, .createProduct]⟩ :=
      (by decide : ∀ r ∈ allRoutes, Handler.createProduct ∈ r.stack →
        r = ⟨.POST, [.lit "create-product"], [.authenticate, .adminAuth, .createProduct]⟩)
        r hr hh
    subst hroute
    have hrest := matchPath_lit_single hp
    have hmeth := handlesMethod_of_ne_GET (by decide) hm
    cases req
    simp only at hpath hmeth
    rw [hpath, hmeth, hrest]
    rfl
  · exact runApp_guarded beh req (by decide) (by decide) app (by decide) false s
      pre o post htrace

theorem createProduct_only_behind_admin_guards_witness :
    dispatch answering ⟨.POST, ["api", "v1", "create-product"]⟩ () =
      [(.expressJson, .next), (.cors, .next), (.session, .next), (.passportInit, .next),
       (.passportSession, .next), (.authenticate, .next), (.adminAuth, .next)] ++
      (Handler.createProduct, Outcome.done) :: [] ∧
    ((⟨.POST, ["api", "v1", "create-product"]⟩ : Request) =
        ⟨.POST, ["api", "v1", "create-product"]⟩ ∧
      ∃ pre0, [(Handler.expressJson, Outcome.next), (.cors, .next), (.session, .next),
          (.passportInit, .next), (.passportSession, .next), (.authenticate, .next),
          (.adminAuth, .next)] =
        pre0 ++ [(Handler.authenticate, Outcome.next), (Handler.adminAuth, Outcome.next)]) :=
  ⟨by decide,
   (createProduct_only_behind_admin_guards answering
      ⟨.POST, ["api", "v1", "create-product"]⟩ ()).1 _ .done [] (by decide)⟩

/-- C3: whatever the handlers do, `makeAdmin` runs only for a request
`PATCH /api/v1/users/:id` (with a non-empty id), and every time it runs
`authenticate` and then `adminAuth` ran directly before it and each called
`next()`; among the routes of the three routers only `PATCH /users/:id` of
the user router has `makeAdmin` in its chain. -/
theorem makeAdmin_only_behind_admin_guards (beh : Handler → σ → σ × Outcome)
    (req : Request) (s : σ) :
    (∀ pre o post, dispatch beh req s = pre ++ (Handler.makeAdmin, o) :: post →
      (∃ id, id ≠ "" ∧ req = ⟨.PATCH, ["api", "v1", "users", id]⟩) ∧
      ∃ pre0, pre = pre0 ++ [(Handler.authenticate, Outcome.next),
        (Handler.adminAuth, Outcome.next)]) ∧
    (∀ r ∈ productRouter ++ paymentRouter, Handler.makeAdmin ∉ r.stack) ∧
    userRouter.filter (fun r => decide (Handler.makeAdmin ∈ r.stack)) =
      [⟨.PATCH, [.lit "users", .param "id"], [.authenticate, .adminAuth, .makeAdmin]⟩] := by
  refine ⟨?_, by decide, by decide⟩
  intro pre o post htrace
  constructor
  · have hmem : (Handler.makeAdmin, o) ∈ (runApp beh req app false s).2 := by
      show (Handler.makeAdmin, o) ∈ dispatch beh req s
      rw [htrace]
      simp
    obtain ⟨r, hr, rest, hpath, hh, hp, hm⟩ :=
      origin_app (runApp_mem beh req app false s _ hmem) (by simp [app]) (by simp [app])
    have hroute : r = ⟨.PATCH, [.lit "users", .param "id"],
        [.authenticate, .adminAuth, .makeAdmin]⟩ :=
      (by decide : ∀ r ∈ allRoutes, Handler.makeAdmin ∈ r.stack →
        r = ⟨.PATCH, [.lit "users", .param "id"], [.authenticate, .adminAuth, .makeAdmin]⟩)
        r hr hh
    subst hroute
    obtain ⟨v, hv, hrest⟩ := matchPath_lit_param hp
    have hmeth := handlesMethod_of_ne_GET (by decide) hm
    refine ⟨v, hv, ?_⟩
    cases req
    simp only at hpath hmeth
    rw [hpath, hmeth, hrest]
    rfl
  · exact runApp_guarded beh req (by decide) (by decide) app (by decide) false s
      pre o post htrace

theorem makeAdmin_only_behind_admin_guards_witness :
    dispatch answering ⟨.PATCH, ["api", "v1", "users", "68e3efc922487ce04327b4f9"]⟩ () =
      [(.expressJson, .next), (.cors, .next), (.session, .next), (.passportInit, .next),
       (.passportSession, .next), (.authenticate, .next), (.adminAuth, .next)] ++
      (Handler.makeAdmin, Outcome.done) :: [] ∧
    ((∃ id, id ≠ "" ∧
        (⟨.PATCH, ["api", "v1", "users", "68e3efc922487ce04327b4f9"]⟩ : Request) =
          ⟨.PATCH, ["api", "v1", "users", id]⟩) ∧
      ∃ pre0, [(Handler.expressJson, Outcome.next), (.cors, .next), (.session, .next),
          (.passportInit, .next), (.passportSession, .next), (.authenticate, .next),
          (.adminAuth, .next)] =
        pre0 ++ [(Handler.authenticate, Outcome.next), (Handler.adminAuth, Outcome.next)]) :=
  ⟨by decide,
   (makeAdmin_only_behind_admin_guards answering
      ⟨.PATCH, ["api", "v1", "users", "68e3efc922487ce04327b4f9"]⟩ ()).1 _ .done [] (by decide)⟩

/-- C4: every operation documented in the Swagger comments of a router is
registered: the router is mounted by `server.js` under `/api/v1` and declares
a route with the same method whose path under the mount point is the
documented path, `{id}` standing for `:id`. -/
theorem documented_operations_registered :
    ∀ x ∈ documented, Layer.useRouter x.1 x.2.1 ∈ app ∧ x.1 = ["api", "v1"] ∧
      registered x.1 x.2.1 x.2.2 := by
  decide

theorem documented_operations_registered_witness :
    Layer.useRouter apiMount userRouter ∈ app ∧ apiMount = ["api", "v1"] ∧
      registered apiMount userRouter
        ⟨.PATCH, [.lit "api", .lit "v1", .lit "users", .brace "id"]⟩ :=
  documented_operations_registered
    (apiMount, userRouter, ⟨.PATCH, [.lit "api", .lit "v1", .lit "users", .brace "id"]⟩)
    (by decide)

end Swagger

namespace PaymentVerification

theorem Advances.refl (p : Payment) : Advances p p := Or.inl rfl

theorem Advances.trans {p q r : Payment} (h1 : Advances p q) (h2 : Advances q r) :
    Advances p r := by
  rcases h1 with rfl | ⟨hp, hq⟩
  · exact h2
  · rcases h2 with rfl | ⟨hq2, _⟩
    · exact Or.inr ⟨hp, hq⟩
    · rcases hq with rfl | rfl <;> simp at hq2

theorem reconcile_advances (p : Payment) (g : Report) : Advances p (reconcile p g) := by
  unfold reconcile
  split_ifs with h
  · cases g
    · exact Or.inr ⟨h, Or.inl rfl⟩
    · exact Or.inr ⟨h, Or.inr rfl⟩
    · exact Or.inl rfl
  · exact Or.inl rfl

theorem forall₂_advances_refl (store : List Payment) : List.Forall₂ Advances store store := by
  induction store with
  | nil => exact List.Forall₂.nil
  | cons p ps ih => exact List.Forall₂.cons (Advances.refl p) ih

theorem forall₂_advances_trans {a b c : List Payment} (h1 : List.Forall₂ Advances a b)
    (h2 : List.Forall₂ Advances b c) : List.Forall₂ Advances a c := by
  induction h1 generalizing c with
  | nil => cases h2; exact List.Forall₂.nil
  | cons hpq _ ih =>
    cases h2 with
    | cons hqr htl => exact List.Forall₂.cons (hpq.trans hqr) (ih htl)

theorem reconcileWhere_advances (sel : Payment → Bool) (g : Report) (store : List Payment) :
    List.Forall₂ Advances store (reconcileWhere sel g store) := by
  induction store with
  | nil => exact List.Forall₂.nil
  | cons p ps ih =>
    unfold reconcileWhere
    split_ifs
    · exact List.Forall₂.cons (reconcile_advances p g) (forall₂_advances_refl ps)
    · exact List.Forall₂.cons (Advances.refl p) ih

theorem verifyPayment_advances (gateway : String → Option Report) (store : List Payment)
    (ref : String) : List.Forall₂ Advances store (verifyPayment gateway store ref).2 := by
  unfold verifyPayment
  split
  · exact forall₂_advances_refl store
  · split
    · exact forall₂_advances_refl store
    · exact reconcileWhere_advances _ _ store

theorem verifyPaymentWebhook_advances (mac : List Nat → List Nat → List Nat)
    (extract : List Nat → Option (String × Report)) (secret : List Nat)
    (store : List Payment) (payload sig : List Nat) :
    List.Forall₂ Advances store
      (verifyPaymentWebhook mac extract secret store payload sig).2 := by
  unfold verifyPaymentWebhook
  split_ifs
  · split
    · exact forall₂_advances_refl store
    · exact reconcileWhere_advances _ _ store
  · exact forall₂_advances_refl store

theorem step_advances (mac : List Nat → List Nat → List Nat)
    (extract : List Nat → Option (String × Report)) (secret : List Nat)
    (store : List Payment) (ev : Event) :
    List.Forall₂ Advances store (step mac extract secret store ev) := by
  cases ev with
  | poll ref gateway => exact verifyPayment_advances gateway store ref
  | webhook payload sig =>
    exact verifyPaymentWebhook_advances mac extract secret store payload sig

theorem run_advances (mac : List Nat → List Nat → List Nat)
    (extract : List Nat → Option (String × Report)) (secret : List Nat)
    (store : List Payment) (evs : List Event) :
    List.Forall₂ Advances store (run mac extract secret store evs) := by
  induction evs generalizing store with
  | nil => exact forall₂_advances_refl store
  | cons ev evs ih =>
    exact forall₂_advances_trans (step_advances mac extract secret store ev)
      (ih (step mac extract secret store ev))

/-- C5 (against the operation as the spec describes it): whatever the
payload and the store, a webhook whose signature header does not verify
against the shared secret is rejected with `InvalidSignature` and the store
of Payments is left exactly as it was. -/
theorem webhook_rejects_unverified_signature (mac : List Nat → List Nat → List Nat)
    (extract : List Nat → Option (String × Report)) (secret : List Nat)
    (store : List Payment) (payload signatureHeader : List Nat)
    (h : verifySignature mac secret payload signatureHeader = false) :
    verifyPaymentWebhook mac extract secret store payload signatureHeader =
      (.error .InvalidSignature, store) := by
  unfold verifyPaymentWebhook
  rw [h]
  rfl

theorem webhook_rejects_unverified_signature_witness :
    verifySignature toyMac [7, 7] [1, 2, 3] [7, 7, 1, 2, 4] = false ∧
    toyExtract [1, 2, 3] = some (samplePayment.transactionId, Report.success) ∧
    verifyPaymentWebhook toyMac toyExtract [7, 7] [samplePayment] [1, 2, 3] [7, 7, 1, 2, 4] =
      (.error .InvalidSignature, [samplePayment]) :=
  ⟨by decide, by decide,
   webhook_rejects_unverified_signature toyMac toyExtract [7, 7] [samplePayment] [1, 2, 3]
     [7, 7, 1, 2, 4] (by decide)⟩

/-- C7 (against the operations as the spec describes them): along every
sequence of polls and webhook deliveries, each stored Payment either stays
exactly as it was or moves from `initialized` to `verified` or `failed` with
its other fields kept; in particular a Payment that is `verified` or `failed`
after some events is the same after any further events. -/
theorem payment_status_monotonic (mac : List Nat → List Nat → List Nat)
    (extract : List Nat → Option (String × Report)) (secret : List Nat)
    (store : List Payment) (evs later : List Event) :
    List.Forall₂ Advances store (run mac extract secret store evs) ∧
    List.Forall₂ (fun p q => Advances p q ∧ (p.status ≠ .initialized → q = p))
      (run mac extract secret store evs) (run mac extract secret store (evs ++ later)) := by
  refine ⟨run_advances mac extract secret store evs, ?_⟩
  have hrun : run mac extract secret store (evs ++ later) =
      run mac extract secret (run mac extract secret store evs) later := by
    simp [run, List.foldl_append]
  rw [hrun]
  refine List.Forall₂.imp ?_ (run_advances mac extract secret _ later)
  intro p q hpq
  refine ⟨hpq, fun hne => ?_⟩
  rcases hpq with h | ⟨h, _⟩
  · exact h
  · exact absurd h hne

end PaymentVerification
